import Mathlib

/-!
Verification development for the MCMC core of the RevBayes repository.

The definitions below shallowly embed the control flow of
`src/core/analysis/mcmc/Mcmc.cpp` and
`src/core/moves/proposal/vector/VectorFixedSingleElementSlideProposal.cpp`.
DAG nodes (class `DagNode`) are declared elsewhere in the repository; the
chain driver only interacts with them through a small method interface
(`touch`, `keep`, `redraw`, `reInitialized`, `getLnProbability`,
`isClamped`, `isStochastic`), which we abstract as a `NodeWorld` over an
opaque heap type `sigma`.  Machine doubles are modelled as rationals, and
the predicate `RbMath::isAComputableNumber` (whose source is not part of
this excerpt) is folded into the log-probability query: `none` stands for
a value that is not a computable number (NaN or infinite).
-/

namespace RevBayes

/-- Events recording the calls the chain driver makes on DAG nodes,
in program order.  The index identifies the node. -/
inductive Ev : Type where
  | setMcmcMode (i : Nat)
  | setPriorOnly (i : Nat)
  | touch (i : Nat)
  | getLnProb (i : Nat)
  | keep (i : Nat)
  | redraw (i : Nat)
  | reInitialized (i : Nat)
deriving DecidableEq, Repr

/-- The DAG-node interface used by `Mcmc::initializeSampler`, abstracted
over an opaque heap state `sigma`.  `clamped` and `stochastic` are the
per-node flags `isClamped()` and `isStochastic()` (constant during
initialization).  `lnProb s i = none` models
`!RbMath::isAComputableNumber(node->getLnProbability())`. -/
structure NodeWorld (sigma : Type) where
  touchOp : sigma → Nat → sigma
  keepOp : sigma → Nat → sigma
  redrawOp : sigma → Nat → sigma
  reInitializedOp : sigma → Nat → sigma
  setMcmcModeOp : sigma → Nat → Bool → sigma
  setPriorOnlyOp : sigma → Nat → Bool → sigma
  lnProb : sigma → Nat → Option ℚ
  clamped : Nat → Bool
  stochastic : Nat → Bool

variable {sigma : Type}

/-- Mcmc.cpp lines 312-320: before the retry loop every DAG node gets
`setMcmcMode(true)`, `setPriorOnly(priorOnly)` and `touch()`. -/
def touchAllInit (w : NodeWorld sigma) (priorOnly : Bool) :
    sigma → List Nat → sigma × List Ev
  | s, [] => (s, [])
  | s, i :: rest =>
    let s1 := w.setMcmcModeOp s i true
    let s2 := w.setPriorOnlyOp s1 i priorOnly
    let s3 := w.touchOp s2 i
    let r := touchAllInit w priorOnly s3 rest
    (r.1, Ev.setMcmcMode i :: Ev.setPriorOnly i :: Ev.touch i :: r.2)

/-- Mcmc.cpp lines 323-342: when the chain is not active, every unclamped
stochastic node of the ordered stochastic node list is redrawn (then
`reInitialized()`), and every clamped node is touched, before the first
evaluation attempt. -/
def preRedraw (w : NodeWorld sigma) :
    sigma → List Nat → sigma × List Ev
  | s, [] => (s, [])
  | s, i :: rest =>
    if !w.clamped i && w.stochastic i then
      let r := preRedraw w (w.reInitializedOp (w.redrawOp s i) i) rest
      (r.1, Ev.redraw i :: Ev.reInitialized i :: r.2)
    else if w.clamped i then
      let r := preRedraw w (w.touchOp s i) rest
      (r.1, Ev.touch i :: r.2)
    else
      preRedraw w s rest

/-- Mcmc.cpp lines 352-375: one evaluation pass.  Each DAG node is touched
and its log-probability read; the pass stops at the first node whose
log-probability is not a computable number (`failed = true`, modelled by
the result `none`); otherwise the log-probabilities are summed. -/
def evalNodes (w : NodeWorld sigma) :
    sigma → ℚ → List Nat → sigma × List Ev × Option ℚ
  | s, acc, [] => (s, [], some acc)
  | s, acc, i :: rest =>
    let s1 := w.touchOp s i
    match w.lnProb s1 i with
    | none => (s1, [Ev.touch i, Ev.getLnProb i], none)
    | some p =>
      let r := evalNodes w s1 (acc + p) rest
      (r.1, Ev.touch i :: Ev.getLnProb i :: r.2.1, r.2.2)

/-- Mcmc.cpp lines 378-381: after each evaluation pass, `keep()` is called
on every DAG node, before the failure flag is inspected. -/
def keepAll (w : NodeWorld sigma) :
    sigma → List Nat → sigma × List Ev
  | s, [] => (s, [])
  | s, i :: rest =>
    let r := keepAll w (w.keepOp s i) rest
    (r.1, Ev.keep i :: r.2)

/-- Mcmc.cpp lines 386-402: after a failed pass, every unclamped
stochastic node of the ordered stochastic node list is redrawn and
`reInitialized()`; every clamped node is `reInitialized()` and touched
again so that its probability is recomputed. -/
def redrawPhase (w : NodeWorld sigma) :
    sigma → List Nat → sigma × List Ev
  | s, [] => (s, [])
  | s, i :: rest =>
    if !w.clamped i && w.stochastic i then
      let r := redrawPhase w (w.reInitializedOp (w.redrawOp s i) i) rest
      (r.1, Ev.redraw i :: Ev.reInitialized i :: r.2)
    else if w.clamped i then
      let r := redrawPhase w (w.touchOp (w.reInitializedOp s i) i) rest
      (r.1, Ev.reInitialized i :: Ev.touch i :: r.2)
    else
      redrawPhase w s rest

/-- The calls one iteration of the retry loop made on the DAG:
the evaluation pass, the unconditional keep pass, and (only when the
evaluation failed) the redraw pass. -/
structure AttemptRec where
  evalEvs : List Ev
  keepEvs : List Ev
  redrawEvs : List Ev
  failed : Bool
deriving DecidableEq, Repr

/-- The events of one attempt, in program order. -/
def AttemptRec.events (a : AttemptRec) : List Ev :=
  a.evalEvs ++ a.keepEvs ++ a.redrawEvs

/-- Mcmc.cpp lines 344-409: the retry loop
`for ( ; numTries < maxNumTries; numTries++ )`.  The fuel argument is the
number of tries still allowed (initially `maxNumTries = 100`); the loop
breaks out as soon as one evaluation pass succeeds, and a redraw pass runs
after every failed pass.  Returns the final heap, the per-attempt records
in order, and the total log-probability of the successful pass (`none`
when the fuel ran out). -/
def tryLoop (w : NodeWorld sigma) (dag stoch : List Nat) :
    sigma → Nat → sigma × List AttemptRec × Option ℚ
  | s, 0 => (s, [], none)
  | s, Nat.succ fuel =>
    let e := evalNodes w s 0 dag
    let k := keepAll w e.1 dag
    match e.2.2 with
    | none =>
      let rd := redrawPhase w k.1 stoch
      let t := tryLoop w dag stoch rd.1 fuel
      (t.1, ⟨e.2.1, k.2, rd.2, true⟩ :: t.2.1, t.2.2)
    | some p => (k.1, [⟨e.2.1, k.2, [], false⟩], some p)

/-- Mcmc.cpp line 345: the retry cap. -/
def maxNumTries : Nat := 100

/-- Mcmc.cpp lines 411-421: the message of the exception thrown when all
tries are exhausted (`numTries = 100 > 1`, so the try count is appended). -/
def initFailureMsg : String :=
  "Unable to find a starting state with computable probability after 100 tries"

/-- The observable outcome of `Mcmc::initializeSampler`. -/
structure InitResult (sigma : Type) where
  finalState : sigma
  preEvs : List Ev
  records : List AttemptRec
  result : Except String ℚ

/-- All DAG calls of the initialization, in program order. -/
def InitResult.trace (r : InitResult sigma) : List Ev :=
  r.preEvs ++ (r.records.map AttemptRec.events).flatten

/-- Shallow embedding of `Mcmc::initializeSampler` (Mcmc.cpp lines
296-438).  `dag` is the index list of `model->getDagNodes()`, `stoch` the
index list of `model->getOrderedStochasticNodes()`.  Schedule creation and
`generation = 0` (lines 423-437) touch no DAG node and are modelled in the
driver-state embedding below. -/
def initializeSampler (w : NodeWorld sigma) (dag stoch : List Nat)
    (chainActive : Bool) (priorOnly : Bool) (s : sigma) : InitResult sigma :=
  let t0 := touchAllInit w priorOnly s dag
  let pre := if chainActive then (t0.1, []) else preRedraw w t0.1 stoch
  let t := tryLoop w dag stoch pre.1 maxNumTries
  { finalState := t.1
    preEvs := t0.2 ++ pre.2
    records := t.2.1
    result :=
      match t.2.2 with
      | none => Except.error initFailureMsg
      | some p => Except.ok p }

/-! ## Chain driver state

The fields of class `Mcmc` that the claims mention (Mcmc.cpp lines 35-44),
together with the per-node data `getModelLnProbability` reads.  A model
node carries the cached `getLnProbability()` value (a double, modelled as
a rational) and the `isClamped` / `isStochastic` flags. -/

/-- One DAG node of the owned model, as seen by the driver-level
methods. -/
structure ModelNode where
  name : String
  lnProbability : ℚ
  clamped : Bool
  stochastic : Bool
deriving DecidableEq, Repr

/-- The `Mcmc` driver state (class members of `Mcmc`, Mcmc.cpp lines
35-44; the move schedule is passed explicitly to `nextCycle`). -/
structure Mcmc where
  chainActive : Bool
  chainLikelihoodHeat : ℚ
  chainPosteriorHeat : ℚ
  chainIdx : Nat
  generation : Nat
  dagNodes : List ModelNode
  numMonitors : Nat
deriving DecidableEq, Repr

/-- The move-schedule interface used by `Mcmc::nextCycle`:
`getNumberMovesPerIteration()` (a double) and `nextMove(generation)`.
Because `nextMove` consumes internal schedule/RNG state, the pick is a
function of the generation argument and of the call number within the
cycle; the returned move is identified by an index. -/
structure Schedule where
  getNumberMovesPerIteration : ℚ
  nextMove : Nat → Nat → Nat

/-- The rounding function `round` of the C++ standard library (half away
from zero), applied by `nextCycle` to the schedule width before the
`size_t` cast. -/
def cppRound (q : ℚ) : ℤ :=
  if 0 ≤ q then ⌊q + 1/2⌋ else ⌈q - 1/2⌉

/-- Driver-level events: the calls `nextCycle`, `monitor` and
`startMonitors` make on the schedule, the moves and the monitors. -/
inductive CEv : Type where
  | nextMoveReq (gen : Nat)
  | performMove (move : Nat) (likelihoodHeat posteriorHeat : ℚ)
  | monitorCall (i : Nat) (gen : Nat)
  | resetMonitor (i : Nat) (numCycles : Nat)
  | openStream (i : Nat)
  | printHeader (i : Nat)
deriving DecidableEq, Repr

/-- Mcmc.cpp lines 471-613: the proposal loop body of `nextCycle`, run
`proposals` times.  Each round asks the schedule for the next move with
the (unchanged) generation counter and performs it with the chain
likelihood and posterior heats.  `i` is the round number, used to thread
the schedule state. -/
def cycleLoop (sched : Schedule) (gen : Nat) (lh ph : ℚ) :
    Nat → Nat → List CEv
  | 0, _ => []
  | Nat.succ k, i =>
    CEv.nextMoveReq gen ::
      CEv.performMove (sched.nextMove gen i) lh ph ::
        cycleLoop sched gen lh ph k (i + 1)

/-- Shallow embedding of `Mcmc::nextCycle` (Mcmc.cpp lines 463-622):
`proposals = size_t(round(schedule->getNumberMovesPerIteration()))`
rounds of schedule query plus `theMove.perform(chainLikelihoodHeat,
chainPosteriorHeat)`, then the generation counter is incremented exactly
when `advanceCycle` is true.  The function has no failure path. -/
def nextCycle (sched : Schedule) (m : Mcmc) (advanceCycle : Bool) :
    Mcmc × List CEv :=
  let proposals := (cppRound sched.getNumberMovesPerIteration).toNat
  let evs := cycleLoop sched m.generation m.chainLikelihoodHeat
      m.chainPosteriorHeat proposals 0
  ({ m with generation :=
      if advanceCycle then m.generation + 1 else m.generation }, evs)

/-- Shallow embedding of `Mcmc::monitor(unsigned long g)` (Mcmc.cpp lines
451-460): `monitors[i].monitor(g)` is called for every attached monitor;
the body never reads `chainActive`.  Modelled from the spec: the Monitor
collaborator (class `Monitor`, not part of this excerpt) writes one
sample line of output when its `monitor(g)` is invoked, so a
`monitorCall` event is a triggered write. -/
def monitor (m : Mcmc) (g : Nat) : List CEv :=
  (List.range m.numMonitors).map (fun i => CEv.monitorCall i g)

/-- Shallow embedding of `Mcmc::startMonitors` (Mcmc.cpp lines 854-878):
every monitor is reset, and only when `chainActive` is true are
`openStream()` and `printHeader()` called on it. -/
def startMonitors (m : Mcmc) (numCycles : Nat) : List CEv :=
  (List.range m.numMonitors).flatMap (fun i =>
    CEv.resetMonitor i numCycles ::
      (if m.chainActive then [CEv.openStream i, CEv.printHeader i] else []))

/-- `Mcmc::setChainActive` (Mcmc.cpp lines 772-775). -/
def setChainActive (m : Mcmc) (tf : Bool) : Mcmc :=
  { m with chainActive := tf }

/-- `Mcmc::setChainLikelihoodHeat` (Mcmc.cpp lines 784-787). -/
def setChainLikelihoodHeat (m : Mcmc) (h : ℚ) : Mcmc :=
  { m with chainLikelihoodHeat := h }

/-- `Mcmc::setChainPosteriorHeat` (Mcmc.cpp lines 821-824). -/
def setChainPosteriorHeat (m : Mcmc) (h : ℚ) : Mcmc :=
  { m with chainPosteriorHeat := h }

/-- Shallow embedding of `Mcmc::getModelLnProbability` (Mcmc.cpp lines
215-226): `pp = 0.0`, then `pp += node->getLnProbability()` over the
model DAG nodes. -/
def getModelLnProbability (m : Mcmc) : ℚ :=
  m.dagNodes.foldl (fun pp node => pp + node.lnProbability) 0

/-- Modelled from the spec: `RandomMoveSchedule::getNumberMovesPerIteration`
(class `RandomMoveSchedule`, not part of this excerpt) reports the sum of
all move weights as the number of moves per iteration
(spec section 4.4: moves per iteration = sum of all weights). -/
def randomScheduleMovesPerIteration (weights : List ℚ) : ℚ :=
  weights.sum

/-! ## VectorFixedSingleElementSlideProposal

Shallow embedding of
`src/core/moves/proposal/vector/VectorFixedSingleElementSlideProposal.cpp`.
The proposal object holds the tuning parameter `lambda`, the fixed element
`index` and the `storedValue` backup; its variable is a stochastic node
holding a vector of doubles (modelled as rationals) plus the list of
touched element indices. -/

/-- Member fields of class `VectorFixedSingleElementSlideProposal`. -/
structure SlideProposal where
  lambda : ℚ
  index : Nat
  storedValue : ℚ
deriving DecidableEq, Repr

/-- The part of the target stochastic node the proposal reads and writes:
the vector value and the touched element indices. -/
structure VecNode where
  value : List ℚ
  touchedElementIndices : List Nat
deriving DecidableEq, Repr

/-- Shallow embedding of
`VectorFixedSingleElementSlideProposal::doProposal` (lines 75-95):
`storedValue = val[index]`, a uniform draw `u` perturbs the element by
`delta = lambda * (u - 0.5)`, the index is added to the touched element
indices, and the Hastings ratio 0.0 is returned.  The random number
`u = rng->uniform01()` is passed in explicitly. -/
def doProposal (p : SlideProposal) (n : VecNode) (u : ℚ) :
    SlideProposal × VecNode × ℚ :=
  let stored := n.value.getD p.index 0
  let delta := p.lambda * (u - 1/2)
  ({ p with storedValue := stored },
   { value := n.value.set p.index (n.value.getD p.index 0 + delta)
     touchedElementIndices := n.touchedElementIndices ++ [p.index] },
   0)

/-- Shallow embedding of
`VectorFixedSingleElementSlideProposal::undoProposal` (lines 131-137):
`v[index] = storedValue` and the touched element indices are cleared. -/
def undoProposal (p : SlideProposal) (n : VecNode) : VecNode :=
  { value := n.value.set p.index p.storedValue
    touchedElementIndices := [] }

/-- Shallow embedding of `VectorFixedSingleElementSlideProposal::tune`
(lines 161-173): rates above 0.44 multiply `lambda` by
`1 + (rate - 0.44)/0.56`, all other rates divide it by
`2 - rate/0.44`. -/
def tune (lambda rate : ℚ) : ℚ :=
  if rate > (44 : ℚ)/100 then
    lambda * (1 + (rate - 44/100) / (56/100))
  else
    lambda / (2 - rate / (44/100))

/-! ## replaceDag

Shallow embedding of `Mcmc::replaceDag` (Mcmc.cpp lines 643-737).  A DAG
node is identified by its stable name plus an identity (the address of
the concrete node object); moves and monitors carry the node references
returned by `getDagNodes()`. -/

/-- A reference to a concrete DAG node: its stable name and an identity
standing for the object address. -/
structure DagNodeRef where
  name : String
  id : Nat
deriving DecidableEq, Repr

/-- The part of a `Move` that `replaceDag` uses: its name and its target
node references. -/
structure MoveT where
  moveName : String
  nodes : List DagNodeRef
deriving DecidableEq, Repr

/-- The part of a `Monitor` that `replaceDag` uses: its target node
references. -/
structure MonitorT where
  nodes : List DagNodeRef
deriving DecidableEq, Repr

/-- The linear search of Mcmc.cpp lines 678-685 / 715-722: the first
model node whose name equals the given name. -/
def lookupByName (modelNodes : List DagNodeRef) (nm : String) :
    Option DagNodeRef :=
  modelNodes.find? (fun k => k.name == nm)

/-- Exception message of Mcmc.cpp line 674. -/
def lostMoveMsg (moveName : String) : String :=
  "Unable to connect move \x27" ++ moveName ++
    "\x27 to DAG copy because variable name was lost"

/-- Exception message of Mcmc.cpp line 689. -/
def moveNotFoundMsg (nodeName : String) : String :=
  "Cannot find node with name \x27" ++ nodeName ++
    "\x27 in the model but received a move working on it."

/-- Exception message of Mcmc.cpp line 711. -/
def lostMonitorMsg : String :=
  "Unable to connect monitor to DAG copy because variable name was lost"

/-- Exception message of Mcmc.cpp line 726. -/
def monitorNotFoundMsg (nodeName : String) : String :=
  "Cannot find node with name \x27" ++ nodeName ++
    "\x27 in the model but received a monitor working on it."

/-- Mcmc.cpp lines 656-694: rebinding of the target nodes of one cloned
move.  An empty node name throws the lost-variable exception; a name with
no match in the model node list throws the not-found exception; otherwise
each target is swapped (`swapNode`) to the first model node bearing the
same name. -/
def rebindMoveNodes (modelNodes : List DagNodeRef) (moveName : String) :
    List DagNodeRef → Except String (List DagNodeRef)
  | [] => Except.ok []
  | t :: rest =>
    if t.name = "" then
      Except.error (lostMoveMsg moveName)
    else
      match lookupByName modelNodes t.name with
      | none => Except.error (moveNotFoundMsg t.name)
      | some newNode =>
        (rebindMoveNodes modelNodes moveName rest).map
          (fun ns => newNode :: ns)

/-- Mcmc.cpp lines 703-731: rebinding of the target nodes of one cloned
monitor. -/
def rebindMonitorNodes (modelNodes : List DagNodeRef) :
    List DagNodeRef → Except String (List DagNodeRef)
  | [] => Except.ok []
  | t :: rest =>
    if t.name = "" then
      Except.error lostMonitorMsg
    else
      match lookupByName modelNodes t.name with
      | none => Except.error (monitorNotFoundMsg t.name)
      | some newNode =>
        (rebindMonitorNodes modelNodes rest).map
          (fun ns => newNode :: ns)

/-- Mcmc.cpp lines 651-697: clone every move, rebind its targets, and
push the rebound copy onto the own move collection; a thrown exception
propagates. -/
def replaceDagMoves (modelNodes : List DagNodeRef) :
    List MoveT → Except String (List MoveT)
  | [] => Except.ok []
  | mv :: rest =>
    match rebindMoveNodes modelNodes mv.moveName mv.nodes with
    | Except.error msg => Except.error msg
    | Except.ok ns =>
      match replaceDagMoves modelNodes rest with
      | Except.error msg => Except.error msg
      | Except.ok tail => Except.ok ({ mv with nodes := ns } :: tail)

/-- Mcmc.cpp lines 699-735: clone every monitor, rebind its targets, and
push the rebound copy onto the own monitor collection. -/
def replaceDagMonitors (modelNodes : List DagNodeRef) :
    List MonitorT → Except String (List MonitorT)
  | [] => Except.ok []
  | mon :: rest =>
    match rebindMonitorNodes modelNodes mon.nodes with
    | Except.error msg => Except.error msg
    | Except.ok ns =>
      match replaceDagMonitors modelNodes rest with
      | Except.error msg => Except.error msg
      | Except.ok tail => Except.ok ({ mon with nodes := ns } :: tail)

/-- Shallow embedding of `Mcmc::replaceDag` (Mcmc.cpp lines 643-737):
the own move and monitor collections are cleared and rebuilt from the
rebound clones; the first exception aborts the whole call. -/
def replaceDag (modelNodes : List DagNodeRef) (mvs : List MoveT)
    (mons : List MonitorT) : Except String (List MoveT × List MonitorT) :=
  match replaceDagMoves modelNodes mvs with
  | Except.error msg => Except.error msg
  | Except.ok ms =>
    match replaceDagMonitors modelNodes mons with
    | Except.error msg => Except.error msg
    | Except.ok mos => Except.ok (ms, mos)

/-- Whether every target reference of the list has a nonempty name that
occurs among the model nodes (the success condition of the rebinding
loops). -/
def targetsOK (modelNodes : List DagNodeRef) (ts : List DagNodeRef) : Bool :=
  ts.all (fun t => !(t.name == "") && (lookupByName modelNodes t.name).isSome)

/-- The swap the rebinding performs on success: each target is replaced
by the first model node with the same name. -/
def swapTargets (modelNodes : List DagNodeRef) (ts : List DagNodeRef) :
    List DagNodeRef :=
  ts.map (fun t => (lookupByName modelNodes t.name).getD t)

/-! ## Concrete instances used to evaluate the development -/

/-- A concrete DAG-node world over a redraw counter: the single node is
unclamped and stochastic, and its log-probability becomes computable
after the first redraw, so initialization succeeds on the second try. -/
def wTwo : NodeWorld Nat :=
  { touchOp := fun s _ => s
    keepOp := fun s _ => s
    redrawOp := fun s _ => s + 1
    reInitializedOp := fun s _ => s
    setMcmcModeOp := fun s _ _ => s
    setPriorOnlyOp := fun s _ _ => s
    lnProb := fun s _ => if 1 ≤ s then some 0 else none
    clamped := fun _ => false
    stochastic := fun _ => true }

/-- A concrete world whose single node is clamped and stochastic and
never has a computable log-probability, so every try fails. -/
def wClamp : NodeWorld Unit :=
  { touchOp := fun s _ => s
    keepOp := fun s _ => s
    redrawOp := fun s _ => s
    reInitializedOp := fun s _ => s
    setMcmcModeOp := fun s _ _ => s
    setPriorOnlyOp := fun s _ _ => s
    lnProb := fun _ _ => none
    clamped := fun _ => true
    stochastic := fun _ => true }

/-- The failed attempt record produced by `wClamp` on node list `[0]`:
the redraw pass re-touches the clamped node instead of redrawing it. -/
def recClamp : AttemptRec :=
  { evalEvs := [Ev.touch 0, Ev.getLnProb 0]
    keepEvs := [Ev.keep 0]
    redrawEvs := [Ev.reInitialized 0, Ev.touch 0]
    failed := true }

/-- The successful attempt record produced by `wTwo` on node list `[0]`. -/
def recOkTwo : AttemptRec :=
  { evalEvs := [Ev.touch 0, Ev.getLnProb 0]
    keepEvs := [Ev.keep 0]
    redrawEvs := []
    failed := false }

/-- A chain whose `chainActive` flag is cleared and that owns one
monitor. -/
def inactiveChain : Mcmc :=
  { chainActive := false
    chainLikelihoodHeat := 1
    chainPosteriorHeat := 1
    chainIdx := 0
    generation := 0
    dagNodes := []
    numMonitors := 1 }

/-- An inactive chain owning two monitors. -/
def inactiveChain2 : Mcmc :=
  { inactiveChain with numMonitors := 2 }

/-- The schedule built over an empty move list: its moves-per-iteration
width is the empty weight sum. -/
def emptySchedule : Schedule :=
  { getNumberMovesPerIteration := randomScheduleMovesPerIteration []
    nextMove := fun _ _ => 0 }

/-- A chain driver state with no moves and no monitors. -/
def chainNoMoves : Mcmc :=
  { chainActive := true
    chainLikelihoodHeat := 1
    chainPosteriorHeat := 1
    chainIdx := 0
    generation := 7
    dagNodes := []
    numMonitors := 0 }

/-! ## Helper lemmas -/

theorem keepAll_events (w : NodeWorld sigma) :
    ∀ (l : List Nat) (s : sigma), (keepAll w s l).2 = l.map Ev.keep := by
  intro l
  induction l with
  | nil => intro s; rfl
  | cons i rest ih => intro s; simp [keepAll, ih]

theorem touchAllInit_no_redraw (w : NodeWorld sigma) (po : Bool) :
    ∀ (l : List Nat) (s : sigma) (i : Nat),
      Ev.redraw i ∉ (touchAllInit w po s l).2 := by
  intro l
  induction l with
  | nil => intro s i h; simp [touchAllInit] at h
  | cons j rest ih =>
    intro s i h
    simp only [touchAllInit, List.mem_cons] at h
    rcases h with h | h | h | h
    · exact Ev.noConfusion h
    · exact Ev.noConfusion h
    · exact Ev.noConfusion h
    · exact ih _ i h

theorem evalNodes_no_redraw (w : NodeWorld sigma) :
    ∀ (l : List Nat) (s : sigma) (acc : ℚ) (i : Nat),
      Ev.redraw i ∉ (evalNodes w s acc l).2.1 := by
  intro l
  induction l with
  | nil => intro s acc i h; simp [evalNodes] at h
  | cons j rest ih =>
    intro s acc i h
    cases hl : w.lnProb (w.touchOp s j) j with
    | none =>
      simp [evalNodes, hl] at h
    | some p =>
      simp only [evalNodes, hl, List.mem_cons] at h
      rcases h with h | h | h
      · exact Ev.noConfusion h
      · exact Ev.noConfusion h
      · exact ih _ _ i h

theorem preRedraw_redraw_only_unclamped (w : NodeWorld sigma) :
    ∀ (l : List Nat) (s : sigma) (i : Nat),
      Ev.redraw i ∈ (preRedraw w s l).2 →
      w.clamped i = false ∧ w.stochastic i = true := by
  intro l
  induction l with
  | nil => intro s i h; simp [preRedraw] at h
  | cons j rest ih =>
    intro s i h
    rcases hcj : w.clamped j with _ | _ <;> rcases hsj : w.stochastic j with _ | _
    · simp only [preRedraw, hcj, hsj, Bool.not_false, Bool.and_false,
        Bool.false_eq_true, if_false] at h
      exact ih _ i h
    · simp only [preRedraw, hcj, hsj, Bool.not_false, Bool.and_true,
        if_true, List.mem_cons] at h
      rcases h with h | h | h
      · cases h; exact ⟨hcj, hsj⟩
      · exact Ev.noConfusion h
      · exact ih _ i h
    · simp only [preRedraw, hcj, hsj, Bool.not_true, Bool.false_and,
        Bool.false_eq_true, if_false, if_true, List.mem_cons] at h
      rcases h with h | h
      · exact Ev.noConfusion h
      · exact ih _ i h
    · simp only [preRedraw, hcj, hsj, Bool.not_true, Bool.false_and,
        Bool.false_eq_true, if_false, if_true, List.mem_cons] at h
      rcases h with h | h
      · exact Ev.noConfusion h
      · exact ih _ i h

theorem redrawPhase_redraw_only_unclamped (w : NodeWorld sigma) :
    ∀ (l : List Nat) (s : sigma) (i : Nat),
      Ev.redraw i ∈ (redrawPhase w s l).2 →
      w.clamped i = false ∧ w.stochastic i = true := by
  intro l
  induction l with
  | nil => intro s i h; simp [redrawPhase] at h
  | cons j rest ih =>
    intro s i h
    rcases hcj : w.clamped j with _ | _ <;> rcases hsj : w.stochastic j with _ | _
    · simp only [redrawPhase, hcj, hsj, Bool.not_false, Bool.and_false,
        Bool.false_eq_true, if_false] at h
      exact ih _ i h
    · simp only [redrawPhase, hcj, hsj, Bool.not_false, Bool.and_true,
        if_true, List.mem_cons] at h
      rcases h with h | h | h
      · cases h; exact ⟨hcj, hsj⟩
      · exact Ev.noConfusion h
      · exact ih _ i h
    · simp only [redrawPhase, hcj, hsj, Bool.not_true, Bool.false_and,
        Bool.false_eq_true, if_false, if_true, List.mem_cons] at h
      rcases h with h | h | h
      · exact Ev.noConfusion h
      · exact Ev.noConfusion h
      · exact ih _ i h
    · simp only [redrawPhase, hcj, hsj, Bool.not_true, Bool.false_and,
        Bool.false_eq_true, if_false, if_true, List.mem_cons] at h
      rcases h with h | h | h
      · exact Ev.noConfusion h
      · exact Ev.noConfusion h
      · exact ih _ i h

theorem redrawPhase_clamped_touched (w : NodeWorld sigma) :
    ∀ (l : List Nat) (s : sigma) (i : Nat),
      i ∈ l → w.clamped i = true →
      Ev.touch i ∈ (redrawPhase w s l).2 := by
  intro l
  induction l with
  | nil => intro s i h; cases h
  | cons j rest ih =>
    intro s i hmem hcl
    rcases List.mem_cons.mp hmem with rfl | hmem
    · simp only [redrawPhase, hcl, Bool.not_true, Bool.false_and,
        Bool.false_eq_true, if_false, if_true, List.mem_cons]
      simp
    · rcases hcj : w.clamped j with _ | _ <;> rcases hsj : w.stochastic j with _ | _
      · simp only [redrawPhase, hcj, hsj, Bool.not_false, Bool.and_false,
          Bool.false_eq_true, if_false]
        exact ih _ i hmem hcl
      · simp only [redrawPhase, hcj, hsj, Bool.not_false, Bool.and_true,
          if_true, List.mem_cons]
        right; right; exact ih _ i hmem hcl
      · simp only [redrawPhase, hcj, hsj, Bool.not_true, Bool.false_and,
          Bool.false_eq_true, if_false, if_true, List.mem_cons]
        right; right; exact ih _ i hmem hcl
      · simp only [redrawPhase, hcj, hsj, Bool.not_true, Bool.false_and,
          Bool.false_eq_true, if_false, if_true, List.mem_cons]
        right; right; exact ih _ i hmem hcl

theorem tryLoop_outcome (w : NodeWorld sigma) (dag stoch : List Nat) :
    ∀ (fuel : Nat) (s : sigma),
      (∃ k, k + 1 ≤ fuel ∧
        (tryLoop w dag stoch s fuel).2.1.map AttemptRec.failed
          = List.replicate k true ++ [false] ∧
        ∃ p, (tryLoop w dag stoch s fuel).2.2 = some p) ∨
      ((tryLoop w dag stoch s fuel).2.1.map AttemptRec.failed
          = List.replicate fuel true ∧
        (tryLoop w dag stoch s fuel).2.2 = none) := by
  intro fuel
  induction fuel with
  | zero => intro s; right; simp [tryLoop]
  | succ n ih =>
    intro s
    cases h : (evalNodes w s 0 dag).2.2 with
    | none =>
      rcases ih (redrawPhase w (keepAll w (evalNodes w s 0 dag).1 dag).1 stoch).1 with
        ⟨k, hk, hmap, p, hp⟩ | ⟨hmap, hp⟩
      · left
        refine ⟨k + 1, by omega, ?_, p, ?_⟩
        · simp [tryLoop, h, hmap, List.replicate_succ]
        · simp [tryLoop, h, hp]
      · right
        constructor
        · simp [tryLoop, h, hmap, List.replicate_succ]
        · simp [tryLoop, h, hp]
    | some p =>
      left
      refine ⟨0, by omega, ?_, p, ?_⟩
      · simp [tryLoop, h]
      · simp [tryLoop, h]

theorem tryLoop_records (w : NodeWorld sigma) (dag stoch : List Nat) :
    ∀ (fuel : Nat) (s : sigma) (a : AttemptRec),
      a ∈ (tryLoop w dag stoch s fuel).2.1 →
      (∃ s1, a.evalEvs = (evalNodes w s1 0 dag).2.1) ∧
      a.keepEvs = dag.map Ev.keep ∧
      ((a.failed = false ∧ a.redrawEvs = []) ∨
        (a.failed = true ∧ ∃ s2, a.redrawEvs = (redrawPhase w s2 stoch).2)) := by
  intro fuel
  induction fuel with
  | zero => intro s a ha; simp [tryLoop] at ha
  | succ n ih =>
    intro s a ha
    cases h : (evalNodes w s 0 dag).2.2 with
    | none =>
      simp only [tryLoop, h, List.mem_cons] at ha
      rcases ha with rfl | ha
      · exact ⟨⟨s, rfl⟩, keepAll_events w dag _,
          Or.inr ⟨rfl, ⟨(keepAll w (evalNodes w s 0 dag).1 dag).1, rfl⟩⟩⟩
      · exact ih _ a ha
    | some p =>
      simp only [tryLoop, h, List.mem_singleton] at ha
      subst ha
      exact ⟨⟨s, rfl⟩, keepAll_events w dag _, Or.inl ⟨rfl, rfl⟩⟩

/-! ## Claim C1 -/

/-- C1: the initialization retry loop of `Mcmc::initializeSampler` makes
at most 100 attempts to find a starting state.  Either some attempt
succeeds, every earlier attempt failed and no further attempt is made
(the per-attempt failure flags are k failures followed by one success,
with k at most 99), or all 100 attempts fail and the function returns
the fatal descriptive error message — it never loops beyond the cap and
never returns a value from a failed attempt. -/
theorem initializeSampler_retry_cap (w : NodeWorld sigma)
    (dag stoch : List Nat) (chainActive priorOnly : Bool) (s : sigma) :
    (initializeSampler w dag stoch chainActive priorOnly s).records.length ≤ 100 ∧
    ((∃ k, k ≤ 99 ∧
        (initializeSampler w dag stoch chainActive priorOnly s).records.map
            AttemptRec.failed = List.replicate k true ++ [false] ∧
        ∃ p, (initializeSampler w dag stoch chainActive priorOnly s).result
            = Except.ok p) ∨
      ((initializeSampler w dag stoch chainActive priorOnly s).records.map
          AttemptRec.failed = List.replicate 100 true ∧
        (initializeSampler w dag stoch chainActive priorOnly s).result
          = Except.error initFailureMsg)) := by
  rcases tryLoop_outcome w dag stoch maxNumTries
      (if chainActive then ((touchAllInit w priorOnly s dag).1, ([] : List Ev))
        else preRedraw w (touchAllInit w priorOnly s dag).1 stoch).1 with
    ⟨k, hk, hmap, p, hp⟩ | ⟨hmap, hp⟩
  · have hk2 : k + 1 ≤ 100 := by simpa [maxNumTries] using hk
    constructor
    · have hlen := congrArg List.length hmap
      simp at hlen
      simp only [initializeSampler]
      omega
    · left
      refine ⟨k, by omega, ?_, p, ?_⟩
      · simpa [initializeSampler] using hmap
      · simp [initializeSampler, hp]
  · constructor
    · have hlen := congrArg List.length hmap
      simp [maxNumTries] at hlen
      simp only [initializeSampler, maxNumTries]
      omega
    · right
      constructor
      · simpa [initializeSampler, maxNumTries] using hmap
      · simp [initializeSampler, hp]

/-! ## Claim C9 -/

/-- C9: throughout `initializeSampler` a clamped node is never redrawn —
every `redraw` call in the full call trace concerns a node that is both
unclamped and stochastic — and in every failed retry pass every clamped
node of the ordered stochastic node list is re-touched during the redraw
pass. -/
theorem initializeSampler_clamped_protected (w : NodeWorld sigma)
    (dag stoch : List Nat) (chainActive priorOnly : Bool) (s : sigma) :
    (∀ i, Ev.redraw i ∈
        (initializeSampler w dag stoch chainActive priorOnly s).trace →
      w.clamped i = false ∧ w.stochastic i = true) ∧
    (∀ a ∈ (initializeSampler w dag stoch chainActive priorOnly s).records,
      a.failed = true → ∀ i ∈ stoch, w.clamped i = true →
        Ev.touch i ∈ a.redrawEvs) := by
  constructor
  · intro i hi
    simp only [InitResult.trace, initializeSampler, List.mem_append] at hi
    rcases hi with (hpre | hpre) | hrec
    · exact absurd hpre (touchAllInit_no_redraw w priorOnly dag s i)
    · rcases hca : chainActive with _ | _
      · simp only [hca, Bool.false_eq_true, if_false] at hpre
        exact preRedraw_redraw_only_unclamped w stoch _ i hpre
      · simp [hca] at hpre
    · rcases List.mem_flatten.mp hrec with ⟨evs, hevs, hiev⟩
      rcases List.mem_map.mp hevs with ⟨a, ha, rfl⟩
      obtain ⟨⟨s1, hev⟩, hkeep, hred⟩ :=
        tryLoop_records w dag stoch maxNumTries _ a ha
      simp only [AttemptRec.events, List.mem_append] at hiev
      rcases hiev with (hiev | hiev) | hiev
      · rw [hev] at hiev
        exact absurd hiev (evalNodes_no_redraw w dag s1 0 i)
      · rw [hkeep] at hiev
        rcases List.mem_map.mp hiev with ⟨j, _, hj⟩
        exact Ev.noConfusion hj
      · rcases hred with ⟨_, hnil⟩ | ⟨_, s2, hrd⟩
        · rw [hnil] at hiev
          cases hiev
        · rw [hrd] at hiev
          exact redrawPhase_redraw_only_unclamped w stoch s2 i hiev
  · intro a ha hfail i hmem hcl
    simp only [initializeSampler] at ha
    obtain ⟨_, _, hred⟩ := tryLoop_records w dag stoch maxNumTries _ a ha
    rcases hred with ⟨hff, _⟩ | ⟨_, s2, hrd⟩
    · rw [hfail] at hff
      cases hff
    · rw [hrd]
      exact redrawPhase_clamped_touched w stoch s2 i hmem hcl

/-- Witness for C9: in the concrete world `wTwo` a redraw call does occur
and the theorem yields its flags; in the concrete world `wClamp` the
failed attempt record contains the re-touch of the clamped node. -/
theorem initializeSampler_clamped_protected_witness :
    (wTwo.clamped 0 = false ∧ wTwo.stochastic 0 = true) ∧
    Ev.touch 0 ∈ recClamp.redrawEvs :=
  ⟨(initializeSampler_clamped_protected wTwo [0] [0] true false 0).1 0
      (by decide),
   (initializeSampler_clamped_protected wClamp [0] [0] true false ()).2
      recClamp (by decide) (by decide) 0 (by decide) (by decide)⟩

/-! ## Claim C10 -/

/-- C10: in `initializeSampler`, every attempt of the retry loop —
including failed attempts — calls `keep()` on every DAG node: the keep
pass of each attempt record covers the whole node list, it sits between
the evaluation events and any redraw events of that attempt, and redraw
events exist only in failed attempts. -/
theorem initializeSampler_keep_every_attempt (w : NodeWorld sigma)
    (dag stoch : List Nat) (chainActive priorOnly : Bool) (s : sigma) :
    ∀ a ∈ (initializeSampler w dag stoch chainActive priorOnly s).records,
      a.keepEvs = dag.map Ev.keep ∧
      a.events = a.evalEvs ++ dag.map Ev.keep ++ a.redrawEvs ∧
      (a.failed = false → a.redrawEvs = []) := by
  intro a ha
  simp only [initializeSampler] at ha
  obtain ⟨_, hkeep, hred⟩ := tryLoop_records w dag stoch maxNumTries _ a ha
  refine ⟨hkeep, ?_, ?_⟩
  · rw [AttemptRec.events, hkeep]
  · intro hff
    rcases hred with ⟨_, hnil⟩ | ⟨hft, _⟩
    · exact hnil
    · rw [hff] at hft
      cases hft

/-- Witness for C10, at the successful attempt record of the concrete
world `wTwo`. -/
theorem initializeSampler_keep_every_attempt_witness :
    recOkTwo.keepEvs = [0].map Ev.keep ∧ recOkTwo.redrawEvs = [] :=
  ⟨(initializeSampler_keep_every_attempt wTwo [0] [0] true false 0
      recOkTwo (by decide)).1,
   (initializeSampler_keep_every_attempt wTwo [0] [0] true false 0
      recOkTwo (by decide)).2.2 rfl⟩

/-! ## Claim C2 -/

theorem cycleLoop_eq (sched : Schedule) (gen : Nat) (lh ph : ℚ) :
    ∀ (n i : Nat), cycleLoop sched gen lh ph n i =
      (List.range n).flatMap (fun j =>
        [CEv.nextMoveReq gen,
         CEv.performMove (sched.nextMove gen (i + j)) lh ph]) := by
  intro n
  induction n with
  | zero => intro i; simp [cycleLoop]
  | succ k ih =>
    intro i
    have hfun : (fun j => [CEv.nextMoveReq gen,
        CEv.performMove (sched.nextMove gen (i + 1 + j)) lh ph])
        = ((fun j => [CEv.nextMoveReq gen,
            CEv.performMove (sched.nextMove gen (i + j)) lh ph])
              ∘ Nat.succ) := by
      funext j
      simp only [Function.comp]
      have hj : i + 1 + j = i + Nat.succ j := by omega
      rw [hj]
    rw [List.range_succ_eq_map, List.flatMap_cons, List.flatMap_map]
    simp only [cycleLoop, ih (i + 1), hfun, Nat.add_zero, List.nil_append,
      List.cons_append]
    rfl

/-- C2: one call to `nextCycle` performs exactly
`round(schedule->getNumberMovesPerIteration())` proposal rounds; each
round asks the schedule for the next move with the current (unchanged)
generation counter and performs the returned move with the chain
likelihood heat and posterior heat; the generation counter is
incremented exactly when `advanceCycle` is true and no other driver
field changes. -/
theorem nextCycle_spec (sched : Schedule) (m : Mcmc) (advanceCycle : Bool) :
    nextCycle sched m advanceCycle =
      ({ m with generation :=
          if advanceCycle then m.generation + 1 else m.generation },
       (List.range (cppRound sched.getNumberMovesPerIteration).toNat).flatMap
         (fun j =>
           [CEv.nextMoveReq m.generation,
            CEv.performMove (sched.nextMove m.generation j)
              m.chainLikelihoodHeat m.chainPosteriorHeat])) := by
  simp only [nextCycle, cycleLoop_eq]
  simp

/-! ## Claim C4 (corrected) -/

/-- Counterexample to C4 as stated: on a chain whose `chainActive` flag
is false, calling `monitor(g)` still delegates to the attached monitor —
the monitor is triggered, so output is written even though the chain is
inactive. -/
theorem monitor_inactive_still_delegates :
    inactiveChain.chainActive = false ∧
    monitor inactiveChain 5 = [CEv.monitorCall 0 5] := by
  constructor
  · rfl
  · decide

/-- C4 amended: `Mcmc::monitor(g)` delegates to every attached monitor
regardless of the `chainActive` flag; the flag gates only the
stream-opening and header-printing of `startMonitors`, and cycles execute
identically on inactive chains. -/
theorem monitor_ignores_chainActive (m : Mcmc) (g : Nat) (b : Bool)
    (sched : Schedule) (advanceCycle : Bool) (numCycles : Nat) :
    monitor (setChainActive m b) g = monitor m g ∧
    (m.chainActive = false →
      ∀ i, CEv.openStream i ∉ startMonitors m numCycles ∧
        CEv.printHeader i ∉ startMonitors m numCycles) ∧
    (nextCycle sched (setChainActive m b) advanceCycle).2
        = (nextCycle sched m advanceCycle).2 ∧
    (nextCycle sched (setChainActive m b) advanceCycle).1.generation
        = (nextCycle sched m advanceCycle).1.generation := by
  refine ⟨rfl, ?_, rfl, rfl⟩
  intro hca i
  constructor
  · intro h
    simp [startMonitors, hca] at h
  · intro h
    simp [startMonitors, hca] at h

/-- Witness for the amended C4 on a concrete inactive chain with two
monitors. -/
theorem monitor_ignores_chainActive_witness :
    CEv.openStream 0 ∉ startMonitors inactiveChain2 3 :=
  ((monitor_ignores_chainActive inactiveChain2 0 true
      ⟨0, fun _ _ => 0⟩ true 3).2.1 rfl 0).1

/-! ## Claim C5 (corrected) -/

theorem cppRound_zero : cppRound 0 = 0 := by
  have hfl : ⌊(0 : ℚ) + 1/2⌋ = 0 := by
    rw [Int.floor_eq_zero_iff]
    constructor <;> norm_num
  rw [cppRound, if_pos le_rfl, hfl]

/-- Counterexample to C5 as stated: over an empty move list the schedule
width is zero, and the driver does not raise any error — `nextCycle`
returns normally, silently performing zero proposal attempts. -/
theorem nextCycle_empty_moves_silent :
    randomScheduleMovesPerIteration [] = 0 ∧
    nextCycle emptySchedule chainNoMoves true
      = ({ chainNoMoves with generation := 8 }, []) := by
  have hz : (cppRound emptySchedule.getNumberMovesPerIteration).toNat = 0 := by
    have : emptySchedule.getNumberMovesPerIteration = 0 := rfl
    rw [this, cppRound_zero]
    rfl
  constructor
  · rfl
  · simp [nextCycle, hz, cycleLoop, chainNoMoves]

/-- C5 amended: with an empty move list the schedule reports zero moves
per iteration, and the driver silently runs cycles that perform no
proposal attempt — `nextCycle` emits no schedule or move call and
returns normally (it has no failure path), still advancing the
generation counter when asked. -/
theorem nextCycle_zero_moves_amended (sched : Schedule) (m : Mcmc)
    (advanceCycle : Bool) (h : sched.getNumberMovesPerIteration = 0) :
    randomScheduleMovesPerIteration [] = 0 ∧
    (nextCycle sched m advanceCycle).2 = [] ∧
    (nextCycle sched m advanceCycle).1
      = { m with generation :=
          if advanceCycle then m.generation + 1 else m.generation } := by
  refine ⟨rfl, ?_, rfl⟩
  have hz : (cppRound sched.getNumberMovesPerIteration).toNat = 0 := by
    rw [h, cppRound_zero]
    rfl
  simp [nextCycle, hz, cycleLoop]

/-- Witness for the amended C5 at the concrete empty-move schedule. -/
theorem nextCycle_zero_moves_amended_witness :
    (nextCycle emptySchedule chainNoMoves true).2 = [] :=
  (nextCycle_zero_moves_amended emptySchedule chainNoMoves true rfl).2.1

/-! ## Claim C6 (corrected) -/

/-- Counterexample to C6 as stated: at an acceptance rate of exactly
0.44 (which is not above the target) the tuning step divides the
tuning parameter by 1 and therefore does not decrease it. -/
theorem tune_at_target_rate_unchanged :
    tune 1 (44/100) = 1 ∧ ¬ tune 1 (44/100) < 1 := by
  norm_num [tune]

/-- C6 amended: for every positive tuning parameter, an acceptance rate
above 0.44 multiplies it by `1 + (rate - 0.44)/0.56` and strictly
increases it; a rate strictly below 0.44 divides it by
`2 - rate/0.44` and strictly decreases it; a rate of exactly 0.44
leaves it unchanged. -/
theorem tune_amended (lambda rate : ℚ) (hl : 0 < lambda) :
    ((44 : ℚ)/100 < rate →
      tune lambda rate = lambda * (1 + (rate - 44/100) / (56/100)) ∧
      lambda < tune lambda rate) ∧
    (rate < (44 : ℚ)/100 →
      tune lambda rate = lambda / (2 - rate / (44/100)) ∧
      tune lambda rate < lambda) ∧
    (rate = (44 : ℚ)/100 → tune lambda rate = lambda) := by
  refine ⟨?_, ?_, ?_⟩
  · intro h
    have he : tune lambda rate
        = lambda * (1 + (rate - 44/100) / (56/100)) := by
      rw [tune, if_pos h]
    refine ⟨he, ?_⟩
    rw [he]
    have h1 : (1 : ℚ) < 1 + (rate - 44/100) / (56/100) := by
      have hp : (0 : ℚ) < (rate - 44/100) / (56/100) :=
        div_pos (by linarith) (by norm_num)
      linarith
    exact (lt_mul_iff_one_lt_right hl).mpr h1
  · intro h
    have hif : ¬ ((44 : ℚ)/100 < rate) := not_lt.mpr (le_of_lt h)
    have he : tune lambda rate = lambda / (2 - rate / (44/100)) := by
      rw [tune, if_neg hif]
    refine ⟨he, ?_⟩
    rw [he]
    have h1 : (1 : ℚ) < 2 - rate / (44/100) := by
      have : rate / (44/100) < 1 := by
        rw [div_lt_one (by norm_num)]
        linarith
      linarith
    exact div_lt_self hl h1
  · intro h
    subst h
    norm_num [tune]

/-- Witness for the amended C6: the tuning parameter 1 strictly grows at
rate 1/2 and strictly shrinks at rate 1/4. -/
theorem tune_amended_witness :
    (1 : ℚ) < tune 1 (1/2) ∧ tune 1 (1/4) < 1 :=
  ⟨((tune_amended 1 (1/2) one_pos).1 (by norm_num)).2,
   ((tune_amended 1 (1/4) one_pos).2.1 (by norm_num)).2⟩

/-! ## Claim C7 -/

theorem foldl_add_lnProbability (l : List ModelNode) :
    ∀ c : ℚ, l.foldl (fun pp node => pp + node.lnProbability) c
      = c + (l.map ModelNode.lnProbability).sum := by
  induction l with
  | nil => intro c; simp
  | cons nd rest ih =>
    intro c
    simp [List.foldl_cons, ih, add_assoc]

/-- C7: `getModelLnProbability` returns exactly the sum of the per-node
log-probabilities of the owned model, and this value is independent of
the chain likelihood-heat and posterior-heat scalars: setting either
heat to any value beforehand does not change the result. -/
theorem getModelLnProbability_spec (m : Mcmc) (h1 h2 : ℚ) :
    getModelLnProbability m = (m.dagNodes.map ModelNode.lnProbability).sum ∧
    getModelLnProbability (setChainLikelihoodHeat m h1)
      = getModelLnProbability m ∧
    getModelLnProbability (setChainPosteriorHeat m h2)
      = getModelLnProbability m := by
  refine ⟨?_, rfl, rfl⟩
  rw [getModelLnProbability, foldl_add_lnProbability]
  simp

/-! ## Claim C3 -/

theorem list_set_getD_self (l : List ℚ) :
    ∀ i : Nat, i < l.length → l.set i (l.getD i 0) = l := by
  induction l with
  | nil => intro i h; simp at h
  | cons a t ih =>
    intro i h
    cases i with
    | zero => simp
    | succ j =>
      simp only [List.getD_cons_succ, List.set_cons_succ, List.cons.injEq,
        true_and]
      exact ih j (by simpa using h)

/-- C3: applying the slide proposal and immediately undoing it restores
the target vector exactly — in particular the perturbed element is
bit-identical to its pre-apply value — for every starting vector, every
valid element index and every random draw the apply step used. -/
theorem doProposal_undoProposal_exact (p : SlideProposal) (n : VecNode)
    (u : ℚ) (h : p.index < n.value.length) :
    (undoProposal (doProposal p n u).1 (doProposal p n u).2.1).value
      = n.value ∧
    (undoProposal (doProposal p n u).1 (doProposal p n u).2.1).value.getD
        p.index 0
      = n.value.getD p.index 0 := by
  have hv : (undoProposal (doProposal p n u).1 (doProposal p n u).2.1).value
      = n.value := by
    simp only [doProposal, undoProposal]
    rw [List.set_set]
    exact list_set_getD_self n.value p.index h
  exact ⟨hv, by rw [hv]⟩

/-- Witness for C3 at lambda 1, index 0, vector `[3]`, draw 1. -/
theorem doProposal_undoProposal_exact_witness :
    (undoProposal (doProposal ⟨1, 0, 0⟩ ⟨[3], []⟩ 1).1
        (doProposal ⟨1, 0, 0⟩ ⟨[3], []⟩ 1).2.1).value = [3] :=
  (doProposal_undoProposal_exact ⟨1, 0, 0⟩ ⟨[3], []⟩ 1 (by decide)).1

/-! ## Claim C8 -/

theorem rebindMoveNodes_ok (modelNodes : List DagNodeRef) (mn : String) :
    ∀ ts : List DagNodeRef, targetsOK modelNodes ts = true →
      rebindMoveNodes modelNodes mn ts
        = Except.ok (swapTargets modelNodes ts) := by
  intro ts
  induction ts with
  | nil => intro _; rfl
  | cons t rest ih =>
    intro h
    simp only [targetsOK, List.all_cons, Bool.and_eq_true] at h
    obtain ⟨⟨hne, hsome⟩, hrest⟩ := h
    have hne2 : ¬ t.name = "" := by
      simpa using hne
    rcases hlk : lookupByName modelNodes t.name with _ | nd
    · rw [hlk] at hsome
      simp at hsome
    · simp only [rebindMoveNodes, if_neg hne2, hlk,
        ih (by simpa [targetsOK] using hrest), Except.map, swapTargets,
        List.map_cons]
      simp [swapTargets, hlk]

theorem rebindMoveNodes_err (modelNodes : List DagNodeRef) (mn : String) :
    ∀ ts : List DagNodeRef, targetsOK modelNodes ts = false →
      ∃ msg, rebindMoveNodes modelNodes mn ts = Except.error msg ∧
        (msg = lostMoveMsg mn ∨
          ∃ t ∈ ts, lookupByName modelNodes t.name = none ∧
            msg = moveNotFoundMsg t.name) := by
  intro ts
  induction ts with
  | nil => intro h; simp [targetsOK] at h
  | cons t rest ih =>
    intro h
    by_cases hne : t.name = ""
    · exact ⟨lostMoveMsg mn, by simp [rebindMoveNodes, hne], Or.inl rfl⟩
    · rcases hlk : lookupByName modelNodes t.name with _ | nd
      · refine ⟨moveNotFoundMsg t.name, ?_, ?_⟩
        · simp [rebindMoveNodes, hne, hlk]
        · exact Or.inr ⟨t, List.mem_cons_self t rest, hlk, rfl⟩
      · have hrest : targetsOK modelNodes rest = false := by
          simp only [targetsOK, List.all_cons, Bool.and_eq_true,
            Bool.and_eq_false_iff] at h ⊢
          rcases h with h | h
          · rcases h with h | h
            · simp [hne] at h
            · rw [hlk] at h
              simp at h
          · exact h
        obtain ⟨msg, hmsg, hshape⟩ := ih hrest
        refine ⟨msg, ?_, ?_⟩
        · simp [rebindMoveNodes, hne, hlk, hmsg, Except.map]
        · rcases hshape with h1 | ⟨t2, ht2, hl2, he2⟩
          · exact Or.inl h1
          · exact Or.inr ⟨t2, List.mem_cons_of_mem t ht2, hl2, he2⟩

theorem rebindMonitorNodes_ok (modelNodes : List DagNodeRef) :
    ∀ ts : List DagNodeRef, targetsOK modelNodes ts = true →
      rebindMonitorNodes modelNodes ts
        = Except.ok (swapTargets modelNodes ts) := by
  intro ts
  induction ts with
  | nil => intro _; rfl
  | cons t rest ih =>
    intro h
    simp only [targetsOK, List.all_cons, Bool.and_eq_true] at h
    obtain ⟨⟨hne, hsome⟩, hrest⟩ := h
    have hne2 : ¬ t.name = "" := by
      simpa using hne
    rcases hlk : lookupByName modelNodes t.name with _ | nd
    · rw [hlk] at hsome
      simp at hsome
    · simp only [rebindMonitorNodes, if_neg hne2, hlk,
        ih (by simpa [targetsOK] using hrest), Except.map, swapTargets,
        List.map_cons]
      simp [swapTargets, hlk]

theorem rebindMonitorNodes_err (modelNodes : List DagNodeRef) :
    ∀ ts : List DagNodeRef, targetsOK modelNodes ts = false →
      ∃ msg, rebindMonitorNodes modelNodes ts = Except.error msg ∧
        (msg = lostMonitorMsg ∨
          ∃ t ∈ ts, lookupByName modelNodes t.name = none ∧
            msg = monitorNotFoundMsg t.name) := by
  intro ts
  induction ts with
  | nil => intro h; simp [targetsOK] at h
  | cons t rest ih =>
    intro h
    by_cases hne : t.name = ""
    · exact ⟨lostMonitorMsg, by simp [rebindMonitorNodes, hne], Or.inl rfl⟩
    · rcases hlk : lookupByName modelNodes t.name with _ | nd
      · refine ⟨monitorNotFoundMsg t.name, ?_, ?_⟩
        · simp [rebindMonitorNodes, hne, hlk]
        · exact Or.inr ⟨t, List.mem_cons_self t rest, hlk, rfl⟩
      · have hrest : targetsOK modelNodes rest = false := by
          simp only [targetsOK, List.all_cons, Bool.and_eq_true,
            Bool.and_eq_false_iff] at h ⊢
          rcases h with h | h
          · rcases h with h | h
            · simp [hne] at h
            · rw [hlk] at h
              simp at h
          · exact h
        obtain ⟨msg, hmsg, hshape⟩ := ih hrest
        refine ⟨msg, ?_, ?_⟩
        · simp [rebindMonitorNodes, hne, hlk, hmsg, Except.map]
        · rcases hshape with h1 | ⟨t2, ht2, hl2, he2⟩
          · exact Or.inl h1
          · exact Or.inr ⟨t2, List.mem_cons_of_mem t ht2, hl2, he2⟩

theorem replaceDagMoves_ok (modelNodes : List DagNodeRef) :
    ∀ mvs : List MoveT,
      mvs.all (fun mv => targetsOK modelNodes mv.nodes) = true →
      replaceDagMoves modelNodes mvs
        = Except.ok (mvs.map (fun mv =>
            { mv with nodes := swapTargets modelNodes mv.nodes })) := by
  intro mvs
  induction mvs with
  | nil => intro _; rfl
  | cons mv rest ih =>
    intro h
    simp only [List.all_cons, Bool.and_eq_true] at h
    obtain ⟨hmv, hrest⟩ := h
    simp [replaceDagMoves, rebindMoveNodes_ok modelNodes mv.moveName mv.nodes hmv,
      ih hrest]

theorem replaceDagMoves_err (modelNodes : List DagNodeRef) :
    ∀ mvs : List MoveT,
      mvs.all (fun mv => targetsOK modelNodes mv.nodes) = false →
      ∃ msg, replaceDagMoves modelNodes mvs = Except.error msg ∧
        ((∃ mv ∈ mvs, msg = lostMoveMsg mv.moveName) ∨
          ∃ t ∈ mvs.flatMap MoveT.nodes,
            lookupByName modelNodes t.name = none ∧
            msg = moveNotFoundMsg t.name) := by
  intro mvs
  induction mvs with
  | nil => intro h; simp at h
  | cons mv rest ih =>
    intro h
    by_cases hmv : targetsOK modelNodes mv.nodes = true
    · have hrest : rest.all (fun x => targetsOK modelNodes x.nodes) = false := by
        simp only [List.all_cons, hmv, Bool.true_and] at h
        exact h
      obtain ⟨msg, hmsg, hshape⟩ := ih hrest
      refine ⟨msg, ?_, ?_⟩
      · simp [replaceDagMoves,
          rebindMoveNodes_ok modelNodes mv.moveName mv.nodes hmv, hmsg]
      · rcases hshape with ⟨mv2, hmv2, he2⟩ | ⟨t2, ht2, hl2, he2⟩
        · exact Or.inl ⟨mv2, List.mem_cons_of_mem mv hmv2, he2⟩
        · refine Or.inr ⟨t2, ?_, hl2, he2⟩
          simp only [List.flatMap_cons, List.mem_append]
          right
          exact ht2
    · obtain ⟨msg, hmsg, hshape⟩ :=
        rebindMoveNodes_err modelNodes mv.moveName mv.nodes
          (by simpa using hmv)
      refine ⟨msg, ?_, ?_⟩
      · simp [replaceDagMoves, hmsg]
      · rcases hshape with h1 | ⟨t2, ht2, hl2, he2⟩
        · exact Or.inl ⟨mv, List.mem_cons_self mv rest, h1⟩
        · refine Or.inr ⟨t2, ?_, hl2, he2⟩
          simp only [List.flatMap_cons, List.mem_append]
          left
          exact ht2

theorem replaceDagMonitors_ok (modelNodes : List DagNodeRef) :
    ∀ mons : List MonitorT,
      mons.all (fun mon => targetsOK modelNodes mon.nodes) = true →
      replaceDagMonitors modelNodes mons
        = Except.ok (mons.map (fun mon =>
            { mon with nodes := swapTargets modelNodes mon.nodes })) := by
  intro mons
  induction mons with
  | nil => intro _; rfl
  | cons mon rest ih =>
    intro h
    simp only [List.all_cons, Bool.and_eq_true] at h
    obtain ⟨hmon, hrest⟩ := h
    simp [replaceDagMonitors, rebindMonitorNodes_ok modelNodes mon.nodes hmon,
      ih hrest]

theorem replaceDagMonitors_err (modelNodes : List DagNodeRef) :
    ∀ mons : List MonitorT,
      mons.all (fun mon => targetsOK modelNodes mon.nodes) = false →
      ∃ msg, replaceDagMonitors modelNodes mons = Except.error msg ∧
        (msg = lostMonitorMsg ∨
          ∃ t ∈ mons.flatMap MonitorT.nodes,
            lookupByName modelNodes t.name = none ∧
            msg = monitorNotFoundMsg t.name) := by
  intro mons
  induction mons with
  | nil => intro h; simp at h
  | cons mon rest ih =>
    intro h
    by_cases hmon : targetsOK modelNodes mon.nodes = true
    · have hrest : rest.all (fun x => targetsOK modelNodes x.nodes) = false := by
        simp only [List.all_cons, hmon, Bool.true_and] at h
        exact h
      obtain ⟨msg, hmsg, hshape⟩ := ih hrest
      refine ⟨msg, ?_, ?_⟩
      · simp [replaceDagMonitors,
          rebindMonitorNodes_ok modelNodes mon.nodes hmon, hmsg]
      · rcases hshape with h1 | ⟨t2, ht2, hl2, he2⟩
        · exact Or.inl h1
        · refine Or.inr ⟨t2, ?_, hl2, he2⟩
          simp only [List.flatMap_cons, List.mem_append]
          right
          exact ht2
    · obtain ⟨msg, hmsg, hshape⟩ :=
        rebindMonitorNodes_err modelNodes mon.nodes (by simpa using hmon)
      refine ⟨msg, ?_, ?_⟩
      · simp [replaceDagMonitors, hmsg]
      · rcases hshape with h1 | ⟨t2, ht2, hl2, he2⟩
        · exact Or.inl h1
        · refine Or.inr ⟨t2, ?_, hl2, he2⟩
          simp only [List.flatMap_cons, List.mem_append]
          left
          exact ht2

/-- C8: `replaceDag` rebinding.  When every target node of every move
and monitor carries a nonempty name that occurs among the cloned model
nodes, the call succeeds and stores in the chain collections the rebound
copies in which each target is swapped to the first model node bearing
the matching stable name.  Otherwise the call fails with an exception
whose message identifies the move whose variable name was lost, the
monitor with a lost variable name, or the missing node name. -/
theorem replaceDag_spec (modelNodes : List DagNodeRef) (mvs : List MoveT)
    (mons : List MonitorT) :
    if (mvs.all (fun mv => targetsOK modelNodes mv.nodes)
        && mons.all (fun mon => targetsOK modelNodes mon.nodes)) then
      replaceDag modelNodes mvs mons
        = Except.ok
            (mvs.map (fun mv =>
              { mv with nodes := swapTargets modelNodes mv.nodes }),
             mons.map (fun mon =>
              { mon with nodes := swapTargets modelNodes mon.nodes }))
    else
      ∃ msg, replaceDag modelNodes mvs mons = Except.error msg ∧
        ((∃ mv ∈ mvs, msg = lostMoveMsg mv.moveName) ∨
         msg = lostMonitorMsg ∨
         (∃ t ∈ mvs.flatMap MoveT.nodes,
            lookupByName modelNodes t.name = none ∧
            msg = moveNotFoundMsg t.name) ∨
         (∃ t ∈ mons.flatMap MonitorT.nodes,
            lookupByName modelNodes t.name = none ∧
            msg = monitorNotFoundMsg t.name)) := by
  by_cases hm : mvs.all (fun mv => targetsOK modelNodes mv.nodes) = true
  · by_cases hn : mons.all (fun mon => targetsOK modelNodes mon.nodes) = true
    · rw [if_pos (by simp [hm, hn])]
      simp [replaceDag, replaceDagMoves_ok modelNodes mvs hm,
        replaceDagMonitors_ok modelNodes mons hn]
    · rw [if_neg (by simp [hn])]
      obtain ⟨msg, hmsg, hshape⟩ :=
        replaceDagMonitors_err modelNodes mons (by simpa using hn)
      refine ⟨msg, ?_, ?_⟩
      · simp [replaceDag, replaceDagMoves_ok modelNodes mvs hm, hmsg]
      · rcases hshape with h1 | ⟨t2, ht2, hl2, he2⟩
        · exact Or.inr (Or.inl h1)
        · exact Or.inr (Or.inr (Or.inr ⟨t2, ht2, hl2, he2⟩))
  · rw [if_neg (by simp [hm])]
    obtain ⟨msg, hmsg, hshape⟩ :=
      replaceDagMoves_err modelNodes mvs (by simpa using hm)
    refine ⟨msg, ?_, ?_⟩
    · simp [replaceDag, hmsg]
    · rcases hshape with ⟨mv2, hmv2, he2⟩ | ⟨t2, ht2, hl2, he2⟩
      · exact Or.inl ⟨mv2, hmv2, he2⟩
      · exact Or.inr (Or.inr (Or.inl ⟨t2, ht2, hl2, he2⟩))

/-- Witness for C8 at a concrete model with one move and one monitor,
both naming the model node `a`. -/
theorem replaceDag_spec_witness :
    replaceDag [⟨"a", 7⟩] [⟨"mv1", [⟨"a", 3⟩]⟩] [⟨[⟨"a", 3⟩]⟩]
      = Except.ok ([⟨"mv1", [⟨"a", 7⟩]⟩], [⟨[⟨"a", 7⟩]⟩]) := by
  have h := replaceDag_spec [⟨"a", 7⟩] [⟨"mv1", [⟨"a", 3⟩]⟩] [⟨[⟨"a", 3⟩]⟩]
  rw [if_pos (by decide)] at h
  exact h.trans rfl

end RevBayes
